import Mathlib

/-!
Verification development for the one-page expense + todo tracker (`app.py`).

The expense-ingestion and summarization core is shallowly embedded:

* Python floats are modelled as exact rationals (`ℚ`); every amount occurring
  in the program is a decimal literal with at most two fractional digits.
* Calendar dates are modelled as integers counting days (ISO `YYYY-MM-DD`
  strings compare lexicographically exactly as their day numbers compare, so
  the SQL comparisons `date >= ?` and `ORDER BY date DESC` are faithfully
  rendered by integer comparison).
* The SQLite tables are modelled as in-memory lists; `AUTOINCREMENT` is an
  explicitly threaded next-identifier.
* External library calls that the repository does not implement (RFC-2822
  date parsing, base64 decoding) are passed in as function parameters, so
  all theorems hold for every behaviour of those collaborators.
-/

namespace ExpenseApp

/-! ### Character classes used by `AMOUNT_REGEX`

`AMOUNT_REGEX = (?:₹|INR|Rs\.?)\s*([0-9][0-9,]*(?:\.[0-9]{1,2})?)` with
`re.IGNORECASE`.  The character classes below embed `[0-9]`, `[0-9,]` and
`\s` (ASCII whitespace; the inputs handled by the app are ASCII apart from
the Rupee sign). -/

def isDigitChar (c : Char) : Bool := '0' ≤ c && c ≤ '9'

def isNumBodyChar (c : Char) : Bool := isDigitChar c || c = ','

def isSpaceChar (c : Char) : Bool :=
  c = ' ' || c = '\t' || c = '\n' || c = '\r' || c = Char.ofNat 11 || c = Char.ofNat 12

/-- ASCII lowercasing, embedding `re.IGNORECASE` / `str.lower()` on the
ASCII letters the markers and header names consist of. -/
def lowerChar (c : Char) : Char :=
  if 'A' ≤ c && c ≤ 'Z' then Char.ofNat (c.toNat + 32) else c

def lowerStr (s : String) : String := String.mk (s.data.map lowerChar)

/-- Match the currency marker `(?:₹|INR|Rs\.?)` (case-insensitively) at the
head of the input; returns the remaining input.  `Rs\.?` greedily consumes a
following dot, which is the unique successful parse whenever one exists. -/
def matchMarker : List Char → Option (List Char)
  | '₹' :: rest => some rest
  | c1 :: c2 :: c3 :: rest =>
    if lowerChar c1 = 'i' && lowerChar c2 = 'n' && lowerChar c3 = 'r' then
      some rest
    else if lowerChar c1 = 'r' && lowerChar c2 = 's' then
      some (if c3 = '.' then rest else c3 :: rest)
    else none
  | c1 :: c2 :: [] =>
    if lowerChar c1 = 'r' && lowerChar c2 = 's' then some [] else none
  | _ => none

/-- Greedy `\s*`. -/
def skipSpaces (l : List Char) : List Char := l.dropWhile isSpaceChar

/-- Match the capture group `[0-9][0-9,]*(?:\.[0-9]{1,2})?` at the head of
the input.  Returns the captured token and the remaining input.  The
fractional part is greedy: it is taken only when a dot is immediately
followed by a digit, and it takes two digits when a second digit follows. -/
def matchNumber : List Char → Option (List Char × List Char)
  | [] => none
  | c :: rest =>
    if isDigitChar c then
      match rest.dropWhile isNumBodyChar with
      | '.' :: d1 :: rest2 =>
        if isDigitChar d1 then
          match rest2 with
          | d2 :: rest3 =>
            if isDigitChar d2 then some (c :: rest.takeWhile isNumBodyChar ++ ['.', d1, d2], rest3)
            else some (c :: rest.takeWhile isNumBodyChar ++ ['.', d1], rest2)
          | [] => some (c :: rest.takeWhile isNumBodyChar ++ ['.', d1], [])
        else some (c :: rest.takeWhile isNumBodyChar, '.' :: d1 :: rest2)
      | rest1 => some (c :: rest.takeWhile isNumBodyChar, rest1)
    else none

/-- One attempted match of `AMOUNT_REGEX` at the current position:
marker, optional whitespace, then the numeric capture group. -/
def matchAt (l : List Char) : Option (List Char × List Char) :=
  match matchMarker l with
  | some afterMarker => matchNumber (skipSpaces afterMarker)
  | none => none

/-- `AMOUNT_REGEX.finditer`: scan left to right, at each position attempt a
match; on success record the capture group and resume after the match, on
failure advance one character.  The fuel argument (initialised to the input
length, which strictly bounds the scan) keeps the recursion structural. -/
def findMatchesAux : Nat → List Char → List (List Char)
  | 0, _ => []
  | _ + 1, [] => []
  | fuel + 1, c :: rest =>
    match matchAt (c :: rest) with
    | some (tok, rest2) => tok :: findMatchesAux fuel rest2
    | none => findMatchesAux fuel rest

def findMatches (l : List Char) : List (List Char) := findMatchesAux l.length l

/-! ### Numeric conversion: `float(m.replace(",", ""))` -/

/-- `m.replace(",", "")`. -/
def stripCommas (l : List Char) : List Char := l.filter (fun c => c ≠ ',')

def digitVal (c : Char) : Nat := c.toNat - '0'.toNat

def natOfDigits (l : List Char) : Nat := l.foldl (fun acc c => 10 * acc + digitVal c) 0

/-- Split a token at its first dot (the decimal point), if any. -/
def splitAtDot : List Char → List Char × Option (List Char)
  | [] => ([], none)
  | c :: rest =>
    if c = '.' then ([], some rest)
    else
      let p := splitAtDot rest
      (c :: p.1, p.2)

/-- Value of a decimal literal split into integer part and optional
fractional part. -/
def ratOfDecomp (ip : List Char) : Option (List Char) → Option ℚ
  | none =>
    if ip ≠ [] ∧ ip.all isDigitChar then some (natOfDigits ip : ℚ) else none
  | some fp =>
    if ip ≠ [] ∧ ip.all isDigitChar ∧ fp ≠ [] ∧ fp.all isDigitChar then
      some ((natOfDigits ip : ℚ) + (natOfDigits fp : ℚ) / (10 : ℚ) ^ fp.length)
    else none

/-- `float(m.replace(",", ""))` on a regex token, modelled exactly on the
decimal grammar `digits (. digits)?` that the capture group produces; any
other shape is a conversion failure (the `except ValueError: continue`
branch of `parse_amount`).  Values are exact rationals. -/
def ratOfToken (tok : List Char) : Option ℚ :=
  ratOfDecomp (splitAtDot (stripCommas tok)).1 (splitAtDot (stripCommas tok)).2

/-- `parse_amount` (`app.py:133-143`): collect all capture groups, convert
each (skipping conversion failures), and return the maximum, or `None` when
there is no match / no convertible match. -/
def parse_amount (text : String) : Option ℚ :=
  if (findMatches text.data).isEmpty then none
  else
    match (findMatches text.data).filterMap ratOfToken with
    | [] => none
    | x :: xs => some (xs.foldl max x)

/-- The list of successfully converted match values of a text. -/
def parsedValues (text : String) : List ℚ :=
  (findMatches text.data).filterMap ratOfToken

/-! ### Calendar arithmetic (`datetime.date`)

Dates are day numbers (days since 1970-01-01).  Months are `(year, month)`
pairs. -/

/-- Gregorian leap-year rule, as implemented by `datetime`. -/
def isLeap (y : ℤ) : Bool := (y % 4 = 0 && y % 100 ≠ 0) || y % 400 = 0

/-- The actual number of days of month `m` of year `y`. -/
def daysInMonth (y : ℤ) (m : ℕ) : ℕ :=
  if m = 2 then (if isLeap y then 29 else 28)
  else if m = 4 ∨ m = 6 ∨ m = 9 ∨ m = 11 then 30 else 31

/-- `(dt.date(y, (m % 12) + 1, 1) - dt.timedelta(days=1)).day`
(`app.py:220`).  Subtracting one day from the first of a month lands on the
last day of the preceding month, so the result is `31` when `(m % 12) + 1`
is January (the preceding month is a December), and otherwise the length of
month `(m % 12) + 1 - 1` of year `y`. -/
def days_in_month_calc (y : ℤ) (m : ℕ) : ℕ :=
  let m' := (m % 12) + 1
  if m' = 1 then 31 else daysInMonth y (m' - 1)

/-- Convert a day number to `(year, month, day)` (civil-from-days). Used by
`summarize_expenses` to embed the month truncation `r["date"][:7]`. -/
def civilFromDays (z : ℤ) : ℤ × ℕ × ℕ :=
  let z' := z + 719468
  let era : ℤ := (if 0 ≤ z' then z' else z' - 146096) / 146097
  let doe : ℤ := z' - era * 146097
  let yoe : ℤ := (doe - doe / 1460 + doe / 36524 - doe / 146096) / 365
  let y : ℤ := yoe + era * 400
  let doy : ℤ := doe - (365 * yoe + yoe / 4 - yoe / 100)
  let mp : ℤ := (5 * doy + 2) / 153
  let d : ℤ := doy - (153 * mp + 2) / 5 + 1
  let m : ℤ := if mp < 10 then mp + 3 else mp - 9
  (if m ≤ 2 then y + 1 else y, m.toNat, d.toNat)

/-- `date[:7]` — truncate a date to its month. -/
def monthOf (d : ℤ) : ℤ × ℕ := ((civilFromDays d).1, (civilFromDays d).2.1)

/-! ### Expense store (`expenses` table) -/

/-- A row of the `expenses` table.  `merchant`/`description` are nullable
columns; `id` is the `AUTOINCREMENT` primary key. -/
structure ExpenseRow where
  id : ℕ
  source : String
  date : ℤ
  merchant : Option String
  description : Option String
  amount : ℚ
  raw : String
  deriving DecidableEq, Repr

/-- `store_expense` (`app.py:114-130`): append-only insert; the caller
threads the next `AUTOINCREMENT` identifier. -/
def store_expense (store : List ExpenseRow) (nextId : ℕ) (source : String) (date : ℤ)
    (merchant description : String) (amount : ℚ) (raw : String) : List ExpenseRow :=
  store ++ [{ id := nextId, source := source, date := date, merchant := some merchant,
              description := some description, amount := amount, raw := raw }]

/-! ### Aggregator (`summarize_expenses`, `app.py:146-204`) -/

/-- The `WHERE` clause of both queries: `date >= today - (days-1)` is added
only when `days > 0`, and `source = ?` only when `source != "all"`. -/
def rowMatches (today : ℤ) (days : ℤ) (source : String) (r : ExpenseRow) : Bool :=
  (if 0 < days then decide (today - (days - 1) ≤ r.date) else true)
    && (if source = "all" then true else decide (r.source = source))

def filteredRows (today : ℤ) (days : ℤ) (source : String) (rows : List ExpenseRow) :
    List ExpenseRow :=
  rows.filter (rowMatches today days source)

/-- `ORDER BY date DESC, id DESC` as a (non-strict, total) comparison. -/
def rowOrder (r s : ExpenseRow) : Prop :=
  s.date < r.date ∨ (s.date = r.date ∧ s.id ≤ r.id)

instance : DecidableRel rowOrder := fun r s =>
  inferInstanceAs (Decidable (s.date < r.date ∨ (s.date = r.date ∧ s.id ≤ r.id)))

instance : IsTotal ExpenseRow rowOrder :=
  ⟨fun r s => by unfold rowOrder; omega⟩

instance : IsTrans ExpenseRow rowOrder :=
  ⟨fun r s t h1 h2 => by unfold rowOrder at *; omega⟩

/-- `by_month[k] = by_month.get(k, 0.0) + amount` on an insertion-ordered
association list (Python dict semantics). -/
def bump {κ : Type} [DecidableEq κ] (d : List (κ × ℚ)) (k : κ) (a : ℚ) : List (κ × ℚ) :=
  if d.any (fun p => p.1 = k) then
    d.map (fun p => if p.1 = k then (p.1, p.2 + a) else p)
  else d ++ [(k, a)]

/-- An element of the `expenses` list of the summary payload
(`app.py:187-197`): nullable merchant/description normalised to `""`. -/
structure ExpenseItem where
  id : ℕ
  source : String
  date : ℤ
  merchant : String
  description : String
  amount : ℚ
  deriving DecidableEq, Repr

def toItem (r : ExpenseRow) : ExpenseItem :=
  { id := r.id, source := r.source, date := r.date, merchant := r.merchant.getD "",
    description := r.description.getD "", amount := r.amount }

structure Summary where
  total : ℚ
  by_month : List ((ℤ × ℕ) × ℚ)
  by_day : List (ℤ × ℚ)
  expenses : List ExpenseItem
  deriving DecidableEq, Repr

/-- `summarize_expenses`: filter by window and source, accumulate the
totals, and return the full filtered list ordered by
`date DESC, id DESC`. -/
def summarize_expenses (today : ℤ) (days : ℤ) (source : String) (rows : List ExpenseRow) :
    Summary :=
  let filtered := filteredRows today days source rows
  { total := filtered.foldl (fun acc r => acc + r.amount) 0
    by_month := filtered.foldl (fun d r => bump d (monthOf r.date) r.amount) []
    by_day := filtered.foldl (fun d r => bump d r.date r.amount) []
    expenses := (List.insertionSort rowOrder filtered).map toItem }

/-! ### Insight generator (`build_insights`, `app.py:207-235`)

The two produced sentences are modelled by their numeric content; the
f-string formatting (thousands grouping, rounding to whole rupees, the
absolute value shown next to the "higher"/"lower" word) is presentation
only. -/

inductive Insight where
  /-- "Spending in {last}: ₹{last_spend} (avg ₹{avg} per day)." -/
  | spending (month : ℤ × ℕ) (total : ℚ) (avgPerDay : ℚ)
  /-- "{last} is {|pct|}% {higher/lower} than {prev}." -/
  | comparison (last prev : ℤ × ℕ) (pct : ℚ) (higher : Bool)
  deriving DecidableEq, Repr

def Insight.isComparison : Insight → Bool
  | .comparison _ _ _ _ => true
  | _ => false

/-- Chronological (= lexicographic on `YYYY-MM` strings) order on months. -/
def monthOrder (a b : ℤ × ℕ) : Prop := a.1 < b.1 ∨ (a.1 = b.1 ∧ a.2 ≤ b.2)

instance : DecidableRel monthOrder := fun a b =>
  inferInstanceAs (Decidable (a.1 < b.1 ∨ (a.1 = b.1 ∧ a.2 ≤ b.2)))

instance : IsTotal (ℤ × ℕ) monthOrder :=
  ⟨fun a b => by unfold monthOrder; omega⟩

instance : IsTrans (ℤ × ℕ) monthOrder :=
  ⟨fun a b c h1 h2 => by unfold monthOrder at *; omega⟩

/-- `months = sorted(by_month.keys())`. -/
def sortedMonths (by_month : List ((ℤ × ℕ) × ℚ)) : List (ℤ × ℕ) :=
  List.insertionSort monthOrder (by_month.map Prod.fst)

/-- `months[-1]`. -/
def latestMonth (by_month : List ((ℤ × ℕ) × ℚ)) : ℤ × ℕ :=
  (sortedMonths by_month).getLast?.getD (0, 0)

/-- `months[-2]`. -/
def prevMonth (by_month : List ((ℤ × ℕ) × ℚ)) : ℤ × ℕ :=
  (sortedMonths by_month).getD ((sortedMonths by_month).length - 2) (0, 0)

/-- `by_month[k]` (dictionary lookup; every key looked up is present). -/
def lookupMonth (by_month : List ((ℤ × ℕ) × ℚ)) (k : ℤ × ℕ) : ℚ :=
  (((by_month.find? (fun p => p.1 = k))).map Prod.snd).getD 0

/-- `days_so_far` (`app.py:216-220`): today's day-of-month when the latest
month is the current calendar month, otherwise the full-month computation
via first-of-next-month minus one day. -/
def daysSoFar (today : ℤ × ℕ) (todayDay : ℕ) (by_month : List ((ℤ × ℕ) × ℚ)) : ℕ :=
  if today = latestMonth by_month then todayDay
  else days_in_month_calc (latestMonth by_month).1 (latestMonth by_month).2

/-- `avg = last_spend / days_so_far if days_so_far else 0` (`app.py:221`). -/
def insightAvg (today : ℤ × ℕ) (todayDay : ℕ) (by_month : List ((ℤ × ℕ) × ℚ)) : ℚ :=
  if daysSoFar today todayDay by_month ≠ 0 then
    lookupMonth by_month (latestMonth by_month) / (daysSoFar today todayDay by_month : ℚ)
  else 0

/-- `build_insights`.  `today` is the current `(year, month)` and
`todayDay` the current day-of-month.  The first insight is always emitted
for a nonempty `by_month`; the comparison insight only with at least two
months and a positive previous-month total. -/
def build_insights (today : ℤ × ℕ) (todayDay : ℕ) (by_month : List ((ℤ × ℕ) × ℚ)) :
    List Insight :=
  if by_month = [] then []
  else
    Insight.spending (latestMonth by_month) (lookupMonth by_month (latestMonth by_month))
        (insightAvg today todayDay by_month) ::
      (if 2 ≤ (sortedMonths by_month).length then
        (if 0 < lookupMonth by_month (prevMonth by_month) then
          [Insight.comparison (latestMonth by_month) (prevMonth by_month)
            ((lookupMonth by_month (latestMonth by_month)
                - lookupMonth by_month (prevMonth by_month))
              / lookupMonth by_month (prevMonth by_month) * 100)
            (decide (0 < lookupMonth by_month (latestMonth by_month)
                - lookupMonth by_month (prevMonth by_month)))]
        else [])
      else [])

/-! ### Manual entry (`api_add_expense`, `app.py:788-801`) -/

/-- The JSON body of a `POST /api/expenses/add` request; absent keys (and
JSON `null`, and the falsy defaults collapsed by `or`) are `none`. -/
structure AddExpenseRequest where
  source : Option String
  date : Option ℤ
  amount : Option ℚ
  merchant : Option String
  description : Option String
  deriving Repr

/-- `api_add_expense`: validation then insert.  Returns the resulting store
and the error message, if any; the `HTTPException` is raised before
`store_expense`, so on the error path the store is unchanged. -/
def api_add_expense (today : ℤ) (req : AddExpenseRequest) (store : List ExpenseRow)
    (nextId : ℕ) : List ExpenseRow × Option String :=
  if req.amount.getD 0 ≤ 0 then (store, some "Amount must be > 0")
  else
    (store_expense store nextId (req.source.getD "manual") (req.date.getD today)
      (req.merchant.getD "") (req.description.getD "") (req.amount.getD 0)
      (req.description.getD ""), none)

/-! ### Mail normalization and sync (`sync_gmail_expenses`, `app.py:273-363`)

`base64.urlsafe_b64decode(...).decode("utf-8", errors="ignore")` and
`email.utils.parsedate_to_datetime` are third-party collaborators; they are
passed in as `decode` and `parseDate` parameters.  Pagination is plumbing:
the per-message loop body is embedded over the concatenated message
list. -/

structure MailPart where
  mimeType : String
  /-- `part["body"]["data"]` — the (still base64-encoded) payload, `none`
  when the key is absent. -/
  data : Option String
  deriving DecidableEq, Repr

structure GmailMessage where
  headers : List (String × String)
  parts : Option (List MailPart)
  body : Option String
  deriving Repr

/-- `next((h["value"] for h in headers if h["name"].lower() == name), "")`. -/
def headerLookup (headers : List (String × String)) (name : String) : String :=
  ((headers.find? (fun h => lowerStr h.1 = name)).map Prod.snd).getD ""

/-- The multi-part scan (`app.py:332-340`): walk the parts; on a
`text/plain` part, fetch its data and stop only if the data is truthy,
otherwise keep scanning. -/
def firstPlainBody (decode : String → String) : List MailPart → String
  | [] => ""
  | part :: rest =>
    if part.mimeType = "text/plain" then
      match part.data with
      | some data => if data ≠ "" then decode data else firstPlainBody decode rest
      | none => firstPlainBody decode rest
    else firstPlainBody decode rest

/-- Body extraction (`app.py:331-346`): multi-part messages use the part
scan, single-part messages decode `payload["body"]["data"]` directly. -/
def extract_body (decode : String → String) (msg : GmailMessage) : String :=
  match msg.parts with
  | some parts => firstPlainBody decode parts
  | none =>
    match msg.body with
    | some data => if data ≠ "" then decode data else ""
    | none => ""

/-- Python `str.strip()` (ASCII whitespace). -/
def stripWs (l : List Char) : List Char :=
  ((l.dropWhile isSpaceChar).reverse.dropWhile isSpaceChar).reverse

/-- `from_.split("<")[0].strip() or from_` (`app.py:352`). -/
def merchantOf (from_ : String) : String :=
  let t := stripWs (from_.data.takeWhile (fun c => c ≠ '<'))
  if t = [] then from_ else String.mk t

/-- `json.dumps({"subject": subject, "from": from_})[:1000]` — the audit
snapshot, truncated to 1000 characters (JSON string escaping is not
modelled; no claim depends on the snapshot's contents). -/
def rawSnapshot (subject from_ : String) : String :=
  String.mk (("\x7b\"subject\": \"" ++ subject ++ "\", \"from\": \"" ++ from_ ++ "\"\x7d").data.take 1000)

def msgSubject (m : GmailMessage) : String := headerLookup m.headers "subject"

def msgFrom (m : GmailMessage) : String := headerLookup m.headers "from"

/-- Date header parse with "today" fallback (`app.py:324-329`). -/
def msgDate (parseDate : String → Option ℤ) (today : ℤ) (m : GmailMessage) : ℤ :=
  (parseDate (headerLookup m.headers "date")).getD today

/-- The loop body of `sync_gmail_expenses` (`app.py:303-357`), acting on
`(store, next identifier, added)`. -/
def sync_step (parseDate : String → Option ℤ) (decode : String → String) (today : ℤ)
    (st : List ExpenseRow × ℕ × ℕ) (m : GmailMessage) : List ExpenseRow × ℕ × ℕ :=
  match parse_amount (msgSubject m ++ "\n" ++ extract_body decode m) with
  | none => st
  | some amount =>
    (store_expense st.1 st.2.1 "gmail" (msgDate parseDate today m)
        (merchantOf (msgFrom m)) (msgSubject m) amount
        (rawSnapshot (msgSubject m) (msgFrom m)),
      st.2.1 + 1, st.2.2 + 1)

/-- `sync_gmail_expenses`: process every fetched message, inserting one
record per message with a parseable amount; returns the new store and the
`added` counter. -/
def sync_gmail_expenses (parseDate : String → Option ℤ) (decode : String → String)
    (today : ℤ) (msgs : List GmailMessage) (store : List ExpenseRow) (nextId : ℕ) :
    List ExpenseRow × ℕ :=
  ((msgs.foldl (sync_step parseDate decode today) (store, nextId, 0)).1,
   (msgs.foldl (sync_step parseDate decode today) (store, nextId, 0)).2.2)

/-- Does a message's text yield an amount?  (The skip condition of the
sync loop.) -/
def msgParseable (decode : String → String) (m : GmailMessage) : Bool :=
  (parse_amount (msgSubject m ++ "\n" ++ extract_body decode m)).isSome

/-! ## Helper lemmas -/

/-- `max(nums)` on a nonempty list is an element of the list. -/
lemma foldl_max_mem (x : ℚ) (xs : List ℚ) :
    xs.foldl max x = x ∨ xs.foldl max x ∈ xs := by
  induction xs generalizing x with
  | nil => exact Or.inl rfl
  | cons b bs ih =>
    rcases ih (max x b) with h | h
    · rcases max_choice x b with hm | hm
      · exact Or.inl (by rw [List.foldl_cons, h, hm])
      · exact Or.inr (by rw [List.foldl_cons, h, hm]; exact List.mem_cons_self b bs)
    · exact Or.inr (List.mem_cons_of_mem _ h)

/-- `max(nums)` bounds the seed and every element. -/
lemma le_foldl_max (x : ℚ) (xs : List ℚ) :
    x ≤ xs.foldl max x ∧ ∀ v ∈ xs, v ≤ xs.foldl max x := by
  induction xs generalizing x with
  | nil => exact ⟨le_refl x, by simp⟩
  | cons b bs ih =>
    have h := ih (max x b)
    refine ⟨le_trans (le_max_left x b) h.1, ?_⟩
    intro v hv
    rcases List.mem_cons.mp hv with rfl | hv
    · exact le_trans (le_max_right x v) h.1
    · exact h.2 v hv

/-- Every successfully converted token value is nonnegative (the regex
admits no sign). -/
lemma ratOfToken_nonneg {tok : List Char} {q : ℚ} (h : ratOfToken tok = some q) :
    0 ≤ q := by
  unfold ratOfToken at h
  cases hfp : (splitAtDot (stripCommas tok)).2 with
  | none =>
    rw [hfp] at h
    simp only [ratOfDecomp] at h
    split at h
    · cases h; positivity
    · cases h
  | some fp =>
    rw [hfp] at h
    simp only [ratOfDecomp] at h
    split at h
    · cases h; positivity
    · cases h

lemma mem_filterMap_ratOfToken_nonneg {ms : List (List Char)} {q : ℚ}
    (h : q ∈ ms.filterMap ratOfToken) : 0 ≤ q := by
  rcases List.mem_filterMap.mp h with ⟨tok, _, htok⟩
  exact ratOfToken_nonneg htok

/-- Structure of `parse_amount` as the maximum of the converted values. -/
lemma parse_amount_eq_none_of_no_value {text : String}
    (h : parsedValues text = []) : parse_amount text = none := by
  unfold parsedValues at h
  unfold parse_amount
  by_cases he : (findMatches text.data).isEmpty
  · simp [he]
  · simp only [he, if_false, Bool.false_eq_true]
    rw [h]

/-! Token-shape lemmas: every capture group of the regex converts to a
(nonnegative) rational, i.e. the `except ValueError` branch of
`parse_amount` is never taken on regex output. -/

lemma digit_ne_comma {c : Char} (h : isDigitChar c = true) : c ≠ ',' := by
  rintro rfl
  exact absurd h (by decide)

lemma stripCommas_all_digit {l : List Char} (h : ∀ x ∈ l, isNumBodyChar x) :
    (stripCommas l).all isDigitChar := by
  rw [List.all_eq_true]
  intro x hx
  have hm := List.mem_filter.mp hx
  have h2 := h x hm.1
  have h3 : x ≠ ',' := by simpa using hm.2
  simp only [isNumBodyChar, Bool.or_eq_true] at h2
  rcases h2 with h2 | h2
  · exact h2
  · exact absurd (by simpa using h2) h3

lemma stripCommas_of_digits {l : List Char} (h : ∀ x ∈ l, isDigitChar x) :
    stripCommas l = l :=
  List.filter_eq_self.mpr (fun x hx => by simpa using digit_ne_comma (h x hx))

lemma dot_not_mem_stripCommas {l : List Char} (h : ∀ x ∈ l, isNumBodyChar x) :
    '.' ∉ stripCommas l := by
  intro hmem
  have hm := List.mem_filter.mp hmem
  exact absurd (h _ hm.1) (by decide)

lemma splitAtDot_no_dot : ∀ {l : List Char}, '.' ∉ l → splitAtDot l = (l, none) := by
  intro l
  induction l with
  | nil => intro _; rfl
  | cons c rest ih =>
    intro h
    have hc : ¬(c = '.') := fun hh => h (hh ▸ List.mem_cons_self c rest)
    simp only [splitAtDot, if_neg hc, ih (fun hm => h (List.mem_cons_of_mem c hm))]

lemma splitAtDot_append : ∀ {a : List Char}, '.' ∉ a → ∀ (b : List Char),
    splitAtDot (a ++ '.' :: b) = (a, some b) := by
  intro a
  induction a with
  | nil => intro _ b; simp [splitAtDot]
  | cons c rest ih =>
    intro h b
    have hc : ¬(c = '.') := fun hh => h (hh ▸ List.mem_cons_self c rest)
    have h2 := ih (fun hm => h (List.mem_cons_of_mem c hm)) b
    simp only [List.cons_append, splitAtDot, if_neg hc, List.append_eq, h2]

lemma int_token_numBody {c : Char} {it : List Char} (hc : isDigitChar c)
    (ht : ∀ x ∈ it, isNumBodyChar x) : ∀ x ∈ c :: it, isNumBodyChar x := by
  intro x hx
  rcases List.mem_cons.mp hx with rfl | hx
  · simp [isNumBodyChar, hc]
  · exact ht x hx

lemma stripCommas_int_token_ne_nil {c : Char} {it : List Char} (hc : isDigitChar c) :
    stripCommas (c :: it) ≠ [] := by
  have hmem : c ∈ stripCommas (c :: it) :=
    List.mem_filter.mpr ⟨List.mem_cons_self c it, by simpa using digit_ne_comma hc⟩
  exact List.ne_nil_of_mem hmem

lemma ratOfToken_int_token {c : Char} {it : List Char} (hc : isDigitChar c)
    (ht : ∀ x ∈ it, isNumBodyChar x) : ∃ q, ratOfToken (c :: it) = some q := by
  have hall := int_token_numBody hc ht
  refine ⟨(natOfDigits (stripCommas (c :: it)) : ℚ), ?_⟩
  unfold ratOfToken
  rw [splitAtDot_no_dot (dot_not_mem_stripCommas hall)]
  show ratOfDecomp (stripCommas (c :: it)) none = _
  simp only [ratOfDecomp]
  rw [if_pos ⟨stripCommas_int_token_ne_nil hc, stripCommas_all_digit hall⟩]

lemma ratOfToken_frac_token {c : Char} {it ds : List Char} (hc : isDigitChar c)
    (ht : ∀ x ∈ it, isNumBodyChar x) (hds : ds ≠ []) (hd : ∀ x ∈ ds, isDigitChar x) :
    ∃ q, ratOfToken (c :: it ++ '.' :: ds) = some q := by
  have hall := int_token_numBody hc ht
  have hsplit : stripCommas (c :: it ++ '.' :: ds)
      = stripCommas (c :: it) ++ '.' :: ds := by
    have h1 : stripCommas ((c :: it) ++ '.' :: ds)
        = stripCommas (c :: it) ++ stripCommas ('.' :: ds) := List.filter_append _ _
    have h2 : stripCommas ('.' :: ds) = '.' :: ds := by
      unfold stripCommas
      rw [List.filter_cons_of_pos (by decide)]
      rw [show List.filter (fun c => decide (c ≠ ',')) ds = ds from stripCommas_of_digits hd]
    rw [show c :: it ++ '.' :: ds = (c :: it) ++ '.' :: ds from rfl, h1, h2]
  refine ⟨(natOfDigits (stripCommas (c :: it)) : ℚ)
      + (natOfDigits ds : ℚ) / (10 : ℚ) ^ ds.length, ?_⟩
  unfold ratOfToken
  rw [hsplit, splitAtDot_append (dot_not_mem_stripCommas hall) ds]
  show ratOfDecomp (stripCommas (c :: it)) (some ds) = _
  simp only [ratOfDecomp]
  rw [if_pos ⟨stripCommas_int_token_ne_nil hc, stripCommas_all_digit hall, hds,
    by rw [List.all_eq_true]; exact fun x hx => hd x hx⟩]

/-- Every token produced by the capture-group matcher converts. -/
lemma matchNumber_ratOfToken : ∀ {l tok rest : List Char},
    matchNumber l = some (tok, rest) → ∃ q, ratOfToken tok = some q := by
  intro l tok rest h
  cases l with
  | nil => cases h
  | cons c cs =>
    simp only [matchNumber] at h
    by_cases hc : isDigitChar c
    · rw [if_pos hc] at h
      have htw : ∀ x ∈ cs.takeWhile isNumBodyChar, isNumBodyChar x :=
        fun x hx => List.mem_takeWhile_imp hx
      split at h
      · rename_i x d1 rest2 heq
        by_cases hd1 : isDigitChar d1
        · rw [if_pos hd1] at h
          split at h
          · rename_i rest2a d2 rest3
            by_cases hd2 : isDigitChar d2
            · rw [if_pos hd2] at h
              cases h
              exact ratOfToken_frac_token hc htw (by simp) (by
                intro x hx
                rcases List.mem_cons.mp hx with rfl | hx
                · exact hd1
                · rcases List.mem_cons.mp hx with rfl | hx
                  · exact hd2
                  · cases hx)
            · rw [if_neg hd2] at h
              cases h
              exact ratOfToken_frac_token hc htw (by simp) (by
                intro x hx
                rcases List.mem_cons.mp hx with rfl | hx
                · exact hd1
                · cases hx)
          · cases h
            exact ratOfToken_frac_token hc htw (by simp) (by
              intro x hx
              rcases List.mem_cons.mp hx with rfl | hx
              · exact hd1
              · cases hx)
        · rw [if_neg hd1] at h
          cases h
          exact ratOfToken_int_token hc htw
      · cases h
        exact ratOfToken_int_token hc htw
    · rw [if_neg hc] at h
      cases h

lemma matchAt_nil : matchAt [] = none := rfl

lemma matchAt_token {l tok rest : List Char} (h : matchAt l = some (tok, rest)) :
    ∃ q, ratOfToken tok = some q := by
  unfold matchAt at h
  split at h
  · exact matchNumber_ratOfToken h
  · cases h

/-- Every recorded capture group converts to a rational. -/
lemma findMatchesAux_tokens : ∀ (fuel : ℕ) (l tok : List Char),
    tok ∈ findMatchesAux fuel l → ∃ q, ratOfToken tok = some q := by
  intro fuel
  induction fuel with
  | zero => intro l tok h; simp [findMatchesAux] at h
  | succ n ih =>
    intro l tok h
    cases l with
    | nil => simp [findMatchesAux] at h
    | cons c rest =>
      rw [findMatchesAux] at h
      rcases hma : matchAt (c :: rest) with _ | ⟨t, r⟩
      · rw [hma] at h
        exact ih rest tok h
      · rw [hma] at h
        rcases List.mem_cons.mp h with rfl | h
        · exact matchAt_token hma
        · exact ih r tok h

lemma findMatches_tokens {l tok : List Char} (h : tok ∈ findMatches l) :
    ∃ q, ratOfToken tok = some q :=
  findMatchesAux_tokens l.length l tok h

/-- If some position of the text matches, the scan records a match. -/
lemma findMatchesAux_ne_nil : ∀ (fuel : ℕ) (l : List Char), l.length ≤ fuel →
    ∀ i : ℕ, (matchAt (l.drop i)).isSome → findMatchesAux fuel l ≠ [] := by
  intro fuel
  induction fuel with
  | zero =>
    intro l hlen i hi
    have : l = [] := List.eq_nil_of_length_eq_zero (Nat.le_zero.mp hlen)
    subst this
    rw [List.drop_nil, matchAt_nil] at hi
    cases hi
  | succ n ih =>
    intro l hlen i hi
    cases l with
    | nil =>
      rw [List.drop_nil, matchAt_nil] at hi
      cases hi
    | cons c rest =>
      rw [findMatchesAux]
      rcases hma : matchAt (c :: rest) with _ | ⟨t, r⟩
      · cases i with
        | zero =>
          rw [List.drop_zero, hma] at hi
          cases hi
        | succ j =>
          rw [List.drop_succ_cons] at hi
          exact ih rest (by simpa using Nat.le_of_succ_le_succ hlen) j hi
      · exact List.cons_ne_nil _ _

/-- Conversely, a recorded match exhibits a matching position. -/
lemma findMatchesAux_exists_matchAt : ∀ (fuel : ℕ) (l : List Char),
    findMatchesAux fuel l ≠ [] → ∃ i, (matchAt (l.drop i)).isSome := by
  intro fuel
  induction fuel with
  | zero => intro l h; simp [findMatchesAux] at h
  | succ n ih =>
    intro l h
    cases l with
    | nil => simp [findMatchesAux] at h
    | cons c rest =>
      rw [findMatchesAux] at h
      rcases hma : matchAt (c :: rest) with _ | ⟨t, r⟩
      · rw [hma] at h
        rcases ih rest h with ⟨i, hi⟩
        exact ⟨i + 1, by rwa [List.drop_succ_cons]⟩
      · exact ⟨0, by rw [List.drop_zero, hma]; rfl⟩

lemma findMatches_ne_nil_iff (l : List Char) :
    findMatches l ≠ [] ↔ ∃ i, (matchAt (l.drop i)).isSome :=
  ⟨findMatchesAux_exists_matchAt l.length l,
   fun ⟨i, hi⟩ => findMatchesAux_ne_nil l.length l (le_refl _) i hi⟩

lemma parse_amount_eq_max_of_value {text : String}
    (h : parsedValues text ≠ []) :
    ∃ m, parse_amount text = some m ∧ m ∈ parsedValues text ∧
      ∀ v ∈ parsedValues text, v ≤ m := by
  unfold parsedValues at h ⊢
  unfold parse_amount
  have he : (findMatches text.data).isEmpty = false := by
    rcases hms : findMatches text.data with _ | ⟨t, ts⟩
    · rw [hms] at h; simp at h
    · rfl
  rcases hnums : (findMatches text.data).filterMap ratOfToken with _ | ⟨x, xs⟩
  · exact absurd hnums h
  · refine ⟨xs.foldl max x, ?_, ?_, ?_⟩
    · simp [he, hnums]
    · rcases foldl_max_mem x xs with hm | hm
      · rw [hm]; exact List.mem_cons_self x xs
      · exact List.mem_cons_of_mem _ hm
    · intro v hv
      rcases List.mem_cons.mp hv with rfl | hv
      · exact (le_foldl_max v xs).1
      · exact (le_foldl_max x xs).2 v hv

lemma parse_amount_isSome_iff (text : String) :
    (parse_amount text).isSome ↔ ∃ i, (matchAt (text.data.drop i)).isSome := by
  constructor
  · intro h
    apply (findMatches_ne_nil_iff text.data).mp
    intro hnil
    unfold parse_amount at h
    rw [hnil] at h
    simp at h
  · intro hex
    have hne := (findMatches_ne_nil_iff text.data).mpr hex
    unfold parse_amount
    rcases hms : findMatches text.data with _ | ⟨t, ts⟩
    · exact absurd hms hne
    · have ht : t ∈ findMatches text.data := by
        rw [hms]; exact List.mem_cons_self _ _
      rcases findMatches_tokens ht with ⟨q, hq⟩
      rcases hnums : (t :: ts).filterMap ratOfToken with _ | ⟨x, xs⟩
      · exfalso
        have hmem : q ∈ (t :: ts).filterMap ratOfToken :=
          List.mem_filterMap.mpr ⟨t, List.mem_cons_self _ _, hq⟩
        rw [hnums] at hmem
        cases hmem
      · simp [hnums]

/-! ## Claim theorems -/

/-- C1: for every input text, if at least one currency-marker match parses
to a valid number, `parse_amount` returns the maximum of all parsed match
values, and if no match parses to a valid number it returns `none`; in
particular a text containing "₹100 and ₹250" yields 250.0. -/
theorem parse_amount_max_wins (text : String) :
    (parsedValues text = [] → parse_amount text = none) ∧
    (parsedValues text ≠ [] →
      ∃ m, parse_amount text = some m ∧ m ∈ parsedValues text ∧
        ∀ v ∈ parsedValues text, v ≤ m) ∧
    parse_amount "Payment of ₹100 and ₹250" = some 250 :=
  ⟨parse_amount_eq_none_of_no_value, fun h => parse_amount_eq_max_of_value h, by decide⟩

/-- Witness for `parse_amount_max_wins`: the max-wins branch holds at a
concrete two-match text. -/
theorem parse_amount_max_wins_witness :
    ∃ m, parse_amount "Payment of ₹100 and ₹250" = some m ∧
      m ∈ parsedValues "Payment of ₹100 and ₹250" ∧
      ∀ v ∈ parsedValues "Payment of ₹100 and ₹250", v ≤ m :=
  (parse_amount_max_wins "Payment of ₹100 and ₹250").2.1 (by decide)

/-- C3: `parse_amount` recognizes an amount exactly when some position of
the text matches a currency marker (Rupee sign, "INR", or "Rs" with an
optional period, case-insensitively) followed by optional whitespace and a
comma-separated numeric literal with an optional 1–2 digit fraction; the
marker-variant instances evaluate as specified, and a bare "1234" yields
`none`. -/
theorem amount_regex_markers :
    (∀ text : String,
      (parse_amount text).isSome ↔ ∃ i, (matchAt (text.data.drop i)).isSome) ∧
    parse_amount "Rs. 1,234.50" = some (1234.5 : ℚ) ∧
    parse_amount "INR 1234.5" = some (1234.5 : ℚ) ∧
    parse_amount "₹1234" = some 1234 ∧
    parse_amount "1234" = none := by
  refine ⟨parse_amount_isSome_iff, ?_, ?_, by decide, by decide⟩
  · have h : findMatches "Rs. 1,234.50".data = [['1', ',', '2', '3', '4', '.', '5', '0']] := by
      decide
    have h2 : ratOfToken ['1', ',', '2', '3', '4', '.', '5', '0'] = some (1234.5 : ℚ) := by
      simp +decide [ratOfToken, stripCommas, splitAtDot, ratOfDecomp, natOfDigits, digitVal]
      norm_num
    simp [parse_amount, h, h2]
  · have h : findMatches "INR 1234.5".data = [['1', '2', '3', '4', '.', '5']] := by decide
    have h2 : ratOfToken ['1', '2', '3', '4', '.', '5'] = some (1234.5 : ℚ) := by
      simp +decide [ratOfToken, stripCommas, splitAtDot, ratOfDecomp, natOfDigits, digitVal]
      norm_num
    simp [parse_amount, h, h2]

/-- Witness for `amount_regex_markers`: the characterization applied at a
concrete marked text. -/
theorem amount_regex_markers_witness :
    (parse_amount "₹77 spent").isSome :=
  (amount_regex_markers.1 "₹77 spent").mpr ⟨0, by decide⟩

/-- C10: `parse_amount` never returns a negative value but does not
guarantee positivity: "₹0" parses to exactly 0.0, the mail-ingestion path
inserts a zero-amount record for such a message, while the manual-entry
path rejects a zero amount. -/
theorem extract_amount_nonneg_not_positive :
    (∀ (text : String) (a : ℚ), parse_amount text = some a → 0 ≤ a) ∧
    parse_amount "₹0" = some 0 ∧
    ((sync_gmail_expenses (fun _ => none) (fun s => s) 0
        [⟨[("Subject", "Alert: ₹0 spent")], none, none⟩] [] 1).1.map
          (fun r => r.amount) = [0] ∧
      (sync_gmail_expenses (fun _ => none) (fun s => s) 0
        [⟨[("Subject", "Alert: ₹0 spent")], none, none⟩] [] 1).2 = 1) ∧
    api_add_expense 0 ⟨none, none, some 0, none, none⟩ [] 1
      = ([], some "Amount must be > 0") := by
  refine ⟨?_, by decide, ⟨by decide, by decide⟩, by decide⟩
  intro text a h
  unfold parse_amount at h
  by_cases he : (findMatches text.data).isEmpty
  · rw [if_pos he] at h; cases h
  · rw [if_neg he] at h
    rcases hnums : (findMatches text.data).filterMap ratOfToken with _ | ⟨x, xs⟩
    · rw [hnums] at h; cases h
    · rw [hnums] at h
      have h2 : some (xs.foldl max x) = some a := h
      have h3 := Option.some.inj h2
      have hmem : a ∈ (findMatches text.data).filterMap ratOfToken := by
        rw [hnums, ← h3]
        rcases foldl_max_mem x xs with hm | hm
        · rw [hm]; exact List.mem_cons_self _ _
        · exact List.mem_cons_of_mem _ hm
      exact mem_filterMap_ratOfToken_nonneg hmem

/-- Witness for `extract_amount_nonneg_not_positive`: the nonnegativity
branch discharged at "₹0". -/
theorem extract_amount_nonneg_witness :
    parse_amount "₹0" = some 0 ∧ (0 : ℚ) ≤ 0 :=
  ⟨by decide, extract_amount_nonneg_not_positive.1 "₹0" 0 (by decide)⟩

/-- C2: for `days > 0` the filtered set contains exactly the records whose
date is ≥ today − (days − 1) (and whose source matches the filter); a
record dated today − days is excluded; for `days ≤ 0` no lower date bound
is applied. -/
theorem summarize_trailing_window (today days : ℤ) (src : String) (rows : List ExpenseRow) :
    (∀ r, r ∈ filteredRows today days src rows ↔
      r ∈ rows ∧ (0 < days → today - (days - 1) ≤ r.date) ∧
        (src ≠ "all" → r.source = src)) ∧
    (0 < days → ∀ r ∈ rows, r.date = today - days →
      r ∉ filteredRows today days src rows) ∧
    (days ≤ 0 → ∀ r ∈ rows, (src ≠ "all" → r.source = src) →
      r ∈ filteredRows today days src rows) := by
  have hmain : ∀ r, r ∈ filteredRows today days src rows ↔
      r ∈ rows ∧ (0 < days → today - (days - 1) ≤ r.date) ∧
        (src ≠ "all" → r.source = src) := by
    intro r
    rw [filteredRows, List.mem_filter]
    unfold rowMatches
    by_cases hd : 0 < days <;> by_cases hs : src = "all" <;>
      simp [hd, hs]
  refine ⟨hmain, ?_, ?_⟩
  · intro hd r _ hdate hmem
    have hge := ((hmain r).mp hmem).2.1 hd
    omega
  · intro hd r hr hsrc
    exact (hmain r).mpr ⟨hr, fun h => absurd h (by omega), hsrc⟩

/-- Witness for `summarize_trailing_window`: with `today = 0, days = 7`,
the record dated `-6 = today - (days-1)` is included and the record dated
`-7 = today - days` is excluded. -/
theorem summarize_trailing_window_witness :
    (⟨1, "manual", -6, none, none, 5, ""⟩ : ExpenseRow) ∈
      filteredRows 0 7 "all"
        [⟨1, "manual", -6, none, none, 5, ""⟩, ⟨2, "manual", -7, none, none, 5, ""⟩] ∧
    (⟨2, "manual", -7, none, none, 5, ""⟩ : ExpenseRow) ∉
      filteredRows 0 7 "all"
        [⟨1, "manual", -6, none, none, 5, ""⟩, ⟨2, "manual", -7, none, none, 5, ""⟩] := by
  have h := summarize_trailing_window 0 7 "all"
    [⟨1, "manual", -6, none, none, 5, ""⟩, ⟨2, "manual", -7, none, none, 5, ""⟩]
  exact ⟨(h.1 _).mpr ⟨by decide, fun _ => by decide, fun hc => absurd rfl hc⟩,
    h.2.1 (by decide) _ (by decide) (by decide)⟩

/-- C6: an add-expense request whose (defaulted) amount is ≤ 0 fails with
the validation error and leaves the store unchanged; a positive amount
creates exactly one new ledger entry. -/
theorem add_expense_validation (today : ℤ) (req : AddExpenseRequest)
    (store : List ExpenseRow) (nextId : ℕ) :
    (req.amount.getD 0 ≤ 0 →
      api_add_expense today req store nextId = (store, some "Amount must be > 0")) ∧
    (0 < req.amount.getD 0 →
      (api_add_expense today req store nextId).2 = none ∧
      (api_add_expense today req store nextId).1.length = store.length + 1 ∧
      (api_add_expense today req store nextId).1 = store ++
        [{ id := nextId, source := req.source.getD "manual", date := req.date.getD today,
           merchant := some (req.merchant.getD ""),
           description := some (req.description.getD ""),
           amount := req.amount.getD 0, raw := req.description.getD "" }]) := by
  constructor
  · intro h
    unfold api_add_expense
    rw [if_pos h]
  · intro h
    unfold api_add_expense
    rw [if_neg (not_le.mpr h)]
    exact ⟨rfl, by simp [store_expense], rfl⟩

/-- Witness for `add_expense_validation`: amount 0 is rejected without a
new entry; amount 5 inserts exactly one entry. -/
theorem add_expense_validation_witness :
    api_add_expense 0 ⟨none, none, some 0, none, none⟩ [] 1
        = ([], some "Amount must be > 0") ∧
    (api_add_expense 0 ⟨none, none, some 5, none, none⟩ [] 1).1.length = 0 + 1 :=
  ⟨(add_expense_validation 0 ⟨none, none, some 0, none, none⟩ [] 1).1 (by decide),
   by
    have h := (add_expense_validation 0 ⟨none, none, some 5, none, none⟩ [] 1).2
      (by decide)
    simpa using h.2.1⟩

/-- `sync_step` on a message with no extractable amount is the identity. -/
lemma sync_step_none {parseDate : String → Option ℤ} {decode : String → String}
    {today : ℤ} {m : GmailMessage}
    (hp : parse_amount (msgSubject m ++ "\n" ++ extract_body decode m) = none)
    (st : List ExpenseRow × ℕ × ℕ) : sync_step parseDate decode today st m = st := by
  unfold sync_step
  rw [hp]

/-- `sync_step` on a message with an extractable amount appends exactly one
record and bumps both counters. -/
lemma sync_step_some {parseDate : String → Option ℤ} {decode : String → String}
    {today : ℤ} {m : GmailMessage} {a : ℚ}
    (hp : parse_amount (msgSubject m ++ "\n" ++ extract_body decode m) = some a)
    (st : List ExpenseRow × ℕ × ℕ) :
    sync_step parseDate decode today st m =
      (store_expense st.1 st.2.1 "gmail" (msgDate parseDate today m)
        (merchantOf (msgFrom m)) (msgSubject m) a
        (rawSnapshot (msgSubject m) (msgFrom m)), st.2.1 + 1, st.2.2 + 1) := by
  unfold sync_step
  rw [hp]

/-- Loop invariant of the sync fold: the counter counts exactly the
parseable messages and the store grows by exactly that many records. -/
lemma sync_loop_spec (parseDate : String → Option ℤ) (decode : String → String)
    (today : ℤ) : ∀ (msgs : List GmailMessage) (store : List ExpenseRow) (nid added : ℕ),
    (msgs.foldl (sync_step parseDate decode today) (store, nid, added)).2.2
        = added + msgs.countP (msgParseable decode) ∧
    ∃ new, (msgs.foldl (sync_step parseDate decode today) (store, nid, added)).1
        = store ++ new ∧ new.length = msgs.countP (msgParseable decode) := by
  intro msgs
  induction msgs with
  | nil =>
    intro store nid added
    exact ⟨by simp, [], by simp, by simp⟩
  | cons m ms ih =>
    intro store nid added
    rw [List.foldl_cons, List.countP_cons]
    rcases hp : parse_amount (msgSubject m ++ "\n" ++ extract_body decode m) with _ | a
    · have hmp : msgParseable decode m = false := by
        unfold msgParseable; rw [hp]; rfl
      rw [sync_step_none hp, hmp]
      have h := ih store nid added
      refine ⟨by rw [h.1]; simp, ?_⟩
      rcases h.2 with ⟨new, hnew, hlen⟩
      exact ⟨new, hnew, by rw [hlen]; simp⟩
    · have hmp : msgParseable decode m = true := by
        unfold msgParseable; rw [hp]; rfl
      rw [sync_step_some hp, hmp]
      have h := ih (store_expense store nid "gmail" (msgDate parseDate today m)
        (merchantOf (msgFrom m)) (msgSubject m) a
        (rawSnapshot (msgSubject m) (msgFrom m))) (nid + 1) (added + 1)
      refine ⟨by rw [h.1]; simp; omega, ?_⟩
      rcases h.2 with ⟨new, hnew, hlen⟩
      refine ⟨(⟨nid, "gmail", msgDate parseDate today m, some (merchantOf (msgFrom m)),
        some (msgSubject m), a, rawSnapshot (msgSubject m) (msgFrom m)⟩ : ExpenseRow)
          :: new, ?_, ?_⟩
      · rw [hnew]
        unfold store_expense
        simp
      · simp [hlen]

/-- C7: every message with no extractable amount is silently skipped,
exactly one record is inserted per parseable message, and the returned
count equals the number of inserted records; in particular 3 messages of
which 1 is unparseable yield exactly 2 new entries. -/
theorem sync_skip_behavior (parseDate : String → Option ℤ) (decode : String → String)
    (today : ℤ) (msgs : List GmailMessage) (store : List ExpenseRow) (nextId : ℕ) :
    ((sync_gmail_expenses parseDate decode today msgs store nextId).2
        = msgs.countP (msgParseable decode) ∧
      ∃ new, (sync_gmail_expenses parseDate decode today msgs store nextId).1
          = store ++ new ∧ new.length = msgs.countP (msgParseable decode)) ∧
    (sync_gmail_expenses (fun _ => none) (fun s => s) 0
      [⟨[("Subject", "Payment of Rs. 120 successful")], none, none⟩,
       ⟨[("Subject", "Your delivery is on the way")], none, none⟩,
       ⟨[("Subject", "INR 75 debited from account")], none, none⟩] [] 1).2 = 2 ∧
    (sync_gmail_expenses (fun _ => none) (fun s => s) 0
      [⟨[("Subject", "Payment of Rs. 120 successful")], none, none⟩,
       ⟨[("Subject", "Your delivery is on the way")], none, none⟩,
       ⟨[("Subject", "INR 75 debited from account")], none, none⟩] [] 1).1.length = 2 := by
  refine ⟨?_, by decide, by decide⟩
  have h := sync_loop_spec parseDate decode today msgs store nextId 0
  unfold sync_gmail_expenses
  exact ⟨by rw [h.1]; simp, h.2⟩

/-- Dictionary values of `by_month` are nonnegative whenever all stored
amounts are, and so is any looked-up total. -/
lemma lookupMonth_nonneg {bm : List ((ℤ × ℕ) × ℚ)} (h : ∀ p ∈ bm, 0 ≤ p.2)
    (k : ℤ × ℕ) : 0 ≤ lookupMonth bm k := by
  unfold lookupMonth
  rcases hf : bm.find? (fun p => p.1 = k) with _ | p
  · rw [hf]; simp
  · rw [hf]; simpa using h p (List.mem_of_find?_eq_some hf)

/-- C5: the percent-change insight is emitted iff `by_month` holds at least
two months and the previous month's total is not exactly zero (given that
month totals, being sums of stored nonnegative amounts, are
nonnegative). -/
theorem insights_percent_change_guard (today : ℤ × ℕ) (todayDay : ℕ)
    (bm : List ((ℤ × ℕ) × ℚ)) (hnn : ∀ p ∈ bm, 0 ≤ p.2) :
    (build_insights today todayDay bm).any Insight.isComparison = true ↔
      2 ≤ bm.length ∧ lookupMonth bm (prevMonth bm) ≠ 0 := by
  by_cases hbm : bm = []
  · subst hbm
    simp [build_insights]
  · have hlen : (sortedMonths bm).length = bm.length := by
      unfold sortedMonths
      rw [List.length_insertionSort, List.length_map]
    unfold build_insights
    rw [if_neg hbm]
    by_cases h2 : 2 ≤ (sortedMonths bm).length
    · rw [if_pos h2]
      by_cases hp : 0 < lookupMonth bm (prevMonth bm)
      · rw [if_pos hp]
        simp only [List.any_cons, List.any_nil, Insight.isComparison, Bool.false_or,
          Bool.or_false]
        constructor
        · intro _
          exact ⟨hlen ▸ h2, ne_of_gt hp⟩
        · intro _
          trivial
      · rw [if_neg hp]
        have h0 : lookupMonth bm (prevMonth bm) = 0 :=
          le_antisymm (not_lt.mp hp) (lookupMonth_nonneg hnn _)
        simp [Insight.isComparison, h0]
    · rw [if_neg h2]
      simp only [List.any_cons, List.any_nil, Insight.isComparison, Bool.or_false]
      constructor
      · intro hfalse
        cases hfalse
      · intro hc
        exact absurd (hlen ▸ hc.1) h2

/-- Witness for `insights_percent_change_guard`: with two months and a
positive previous total the comparison insight is present. -/
theorem insights_percent_change_guard_witness :
    (build_insights (2024, 2) 3 [((2024, 1), (100 : ℚ)), ((2024, 2), (150 : ℚ))]).any
        Insight.isComparison = true :=
  (insights_percent_change_guard (2024, 2) 3
    [((2024, 1), (100 : ℚ)), ((2024, 2), (150 : ℚ))] (by decide)).mpr
    ⟨by decide, by decide⟩

lemma daysInMonth_pos (y : ℤ) (m : ℕ) : 0 < daysInMonth y m := by
  unfold daysInMonth
  split
  · split <;> norm_num
  · split <;> norm_num

/-- The code's first-of-next-month-minus-one-day computation agrees with
the actual month length for every real month, including December (where
`dt.date(y, 1, 1)` of the *same* year minus one day still has day 31). -/
lemma days_in_month_calc_eq (y : ℤ) {m : ℕ} (h1 : 1 ≤ m) (h2 : m ≤ 12) :
    days_in_month_calc y m = daysInMonth y m := by
  interval_cases m <;> rfl

/-- C4: whenever the latest month of a non-empty `by_month` is not the
current calendar month, the daily-average divisor of the first insight is
the actual number of days of that month; for a December latest month the
computation resolves to 31 for every year. -/
theorem insights_days_in_month :
    (∀ (today : ℤ × ℕ) (todayDay : ℕ) (bm : List ((ℤ × ℕ) × ℚ)),
      bm ≠ [] → 1 ≤ (latestMonth bm).2 → (latestMonth bm).2 ≤ 12 →
      today ≠ latestMonth bm →
      (build_insights today todayDay bm).head? = some (.spending (latestMonth bm)
        (lookupMonth bm (latestMonth bm))
        (lookupMonth bm (latestMonth bm)
          / (daysInMonth (latestMonth bm).1 (latestMonth bm).2 : ℚ)))) ∧
    ∀ y : ℤ, days_in_month_calc y 12 = 31 := by
  constructor
  · intro today td bm hne h1 h2 hnc
    have hds : daysSoFar today td bm = daysInMonth (latestMonth bm).1 (latestMonth bm).2 := by
      unfold daysSoFar
      rw [if_neg hnc, days_in_month_calc_eq _ h1 h2]
    have havg : insightAvg today td bm
        = lookupMonth bm (latestMonth bm)
          / (daysInMonth (latestMonth bm).1 (latestMonth bm).2 : ℚ) := by
      unfold insightAvg
      rw [hds, if_pos (by exact_mod_cast (daysInMonth_pos (latestMonth bm).1
        (latestMonth bm).2).ne')]
    unfold build_insights
    rw [if_neg hne, List.head?_cons, havg]
  · intro y
    rfl

/-- Witness for `insights_days_in_month`: a sole December 2023 month with
January 2024 as the current month. -/
theorem insights_days_in_month_witness :
    (build_insights (2024, 1) 5 [((2023, 12), (310 : ℚ))]).head?
      = some (.spending (latestMonth [((2023, 12), (310 : ℚ))])
        (lookupMonth [((2023, 12), (310 : ℚ))] (latestMonth [((2023, 12), (310 : ℚ))]))
        (lookupMonth [((2023, 12), (310 : ℚ))] (latestMonth [((2023, 12), (310 : ℚ))])
          / (daysInMonth (latestMonth [((2023, 12), (310 : ℚ))]).1
              (latestMonth [((2023, 12), (310 : ℚ))]).2 : ℚ))) :=
  insights_days_in_month.1 (2024, 1) 5 [((2023, 12), (310 : ℚ))]
    (by decide) (by decide) (by decide) (by decide)

/-- C8: the expense list returned by the summary is strictly decreasing in
the lexicographic (date, id) order — date descending, identifier descending
on equal dates — provided row identifiers are distinct (the primary-key
invariant of the store). -/
theorem summarize_ordering (today days : ℤ) (src : String) (rows : List ExpenseRow)
    (hids : (rows.map ExpenseRow.id).Nodup) :
    ((summarize_expenses today days src rows).expenses).Pairwise
      (fun a b => b.date < a.date ∨ (b.date = a.date ∧ b.id < a.id)) := by
  show ((List.insertionSort rowOrder (filteredRows today days src rows)).map toItem).Pairwise _
  rw [List.pairwise_map]
  have hsorted : List.Pairwise rowOrder
      (List.insertionSort rowOrder (filteredRows today days src rows)) :=
    List.sorted_insertionSort rowOrder _
  have hsub : List.Sublist (filteredRows today days src rows) rows :=
    List.filter_sublist rows
  have hnodupF : ((filteredRows today days src rows).map ExpenseRow.id).Nodup :=
    hids.sublist (hsub.map ExpenseRow.id)
  have hperm : ((List.insertionSort rowOrder (filteredRows today days src rows)).map
      ExpenseRow.id).Perm ((filteredRows today days src rows).map ExpenseRow.id) :=
    (List.perm_insertionSort rowOrder _).map _
  have hnodupL : ((List.insertionSort rowOrder (filteredRows today days src rows)).map
      ExpenseRow.id).Nodup := hperm.symm.nodup hnodupF
  have hne : (List.insertionSort rowOrder (filteredRows today days src rows)).Pairwise
      (fun a b => a.id ≠ b.id) := List.pairwise_map.mp hnodupL
  refine (hsorted.and hne).imp ?_
  intro a b hab
  rcases hab.1 with h | ⟨heq, hle⟩
  · exact Or.inl h
  · exact Or.inr ⟨heq, lt_of_le_of_ne hle (Ne.symm hab.2)⟩

/-- Witness for `summarize_ordering` at a concrete store with a same-day
tie. -/
theorem summarize_ordering_witness :
    ((summarize_expenses 0 0 "all"
      [⟨1, "manual", 10, none, none, 5, ""⟩, ⟨2, "sms", 10, none, none, 7, ""⟩,
       ⟨3, "manual", 12, none, none, 1, ""⟩]).expenses).Pairwise
      (fun a b => b.date < a.date ∨ (b.date = a.date ∧ b.id < a.id)) :=
  summarize_ordering 0 0 "all"
    [⟨1, "manual", 10, none, none, 5, ""⟩, ⟨2, "sms", 10, none, none, 7, ""⟩,
     ⟨3, "manual", 12, none, none, 1, ""⟩] (by decide)

/-- C9 counterexample: when the first `text/plain` part carries no body
data, the loop does not stop there — a later `text/plain` part supplies the
body, so later text/plain parts are not ignored as the claim states. -/
theorem extract_body_counterexample :
    extract_body (fun s => s)
        ⟨[], some [⟨"text/plain", none⟩, ⟨"text/plain", some "from the second part"⟩], none⟩
      = "from the second part" ∧
    extract_body (fun s => s)
        ⟨[], some [⟨"text/plain", none⟩, ⟨"text/plain", some "changed later part"⟩], none⟩
      = "changed later part" := by
  exact ⟨by decide, by decide⟩

/-- C9 (amended): the normalized body is the decoded data of the first
`text/plain` part that has nonempty body data (parts without data — and all
parts after the chosen one — are ignored); a single-part message decodes
its body directly when data is present and nonempty. -/
theorem extract_body_first_plain_with_data (decode : String → String)
    (headers : List (String × String)) (bd : Option String) :
    (∀ parts : List MailPart,
      extract_body decode ⟨headers, some parts, bd⟩ =
        (((parts.find? (fun p => p.mimeType == "text/plain" && p.data.getD "" != "")).map
          (fun p => decode (p.data.getD ""))).getD "")) ∧
    extract_body decode ⟨headers, none, bd⟩ =
      (match bd with | some d => if d ≠ "" then decode d else "" | none => "") := by
  constructor
  · intro parts
    show firstPlainBody decode parts = _
    induction parts with
    | nil => rfl
    | cons part rest ih =>
      by_cases hm : part.mimeType = "text/plain"
      · rcases hd : part.data with _ | d
        · rw [firstPlainBody, if_pos hm, hd]
          rw [List.find?_cons_of_neg _ (by simp [hm, hd])]
          exact ih
        · by_cases hempty : d = ""
          · rw [firstPlainBody, if_pos hm, hd]
            dsimp only
            rw [if_neg (by simp [hempty]), List.find?_cons_of_neg _ (by simp [hm, hd, hempty])]
            exact ih
          · rw [firstPlainBody, if_pos hm, hd]
            dsimp only
            rw [if_pos (by simpa using hempty), List.find?_cons_of_pos _ (by simp [hm, hd, hempty])]
            simp [hd]
      · rw [firstPlainBody, if_neg hm]
        rw [List.find?_cons_of_neg _ (by simp [hm])]
        exact ih
  · rcases bd with _ | d <;> rfl

end ExpenseApp
